import Mathlib

/-!
# Verification of the Hydra pipeline framework

Shallow embedding of the core of the `hydra` repository
(`hydra_core.py`, `hydra_common.py`, `hydra_net.py`) and proofs about it.

Conventions used throughout:
* Bytes are modelled as `Nat`; byte strings as `List Nat`.
* Python objects are identified by small structures with decidable equality;
  a Python `set` is modelled as a Lean list managed with membership checks
  (only membership and cardinality of the set matter to the properties proved
  here, never iteration order).
* Side effects (calls performed on sockets, threads, subscribers) are made
  explicit as returned lists, in call order.
-/

namespace Hydra

/-! ## Publisher / Subscriber (hydra_core.py, lines 75-91)

`Publisher.subscribers` is a Python `set`; `add_subscriber` is `set.add`,
which inserts the element only when it is not already a member.  We model the
set as a duplicate-free list and `notify_all` as the list of
`subscriber.notify(self, item)` calls it performs, in order. -/

/-- Models `Publisher.add_subscriber` (set insertion: no-op when present). -/
def add_subscriber (subs : List Nat) (s : Nat) : List Nat :=
  if s ∈ subs then subs else subs ++ [s]

/-- Models `Publisher.notify_all`: one `notify(self, item)` call per
registered subscriber.  Each element of the result is the pair
(subscriber identity, item delivered). -/
def notify_all (subs : List Nat) (item : Nat) : List (Nat × Nat) :=
  subs.map (fun s => (s, item))

/-! ## Nodes and the Graph (hydra_core.py, lines 94-184) -/

/-- A node, as the `Graph` sees it: a Python object identity `oid`, the
`name` attribute, and whether `isinstance(node, threading.Thread)` holds
(i.e. the node owns a thread of control). -/
structure GNode where
  oid : Nat
  name : Nat
  isThread : Bool
deriving DecidableEq

/-- Models `hydra_core.Graph`: a name, the `nodes` set (modelled as a
duplicate-free list of object identities) and the `executable_nodes` list,
in registration order. -/
structure Graph where
  name : Nat
  nodes : List GNode
  executable_nodes : List GNode
deriving DecidableEq

/-- Models `Graph.has_node_with_name` (lines 139-143). -/
def has_node_with_name (g : Graph) (node_name : Nat) : Bool :=
  g.nodes.any (fun n => n.name = node_name)

/-- Models `Graph.add` (lines 145-151).  Returns the graph after the call and
whether a `DuplicateNodeNameError` was raised (`true` = raised; the raise
happens before any mutation, so the returned graph is the input unchanged). -/
def Graph.add (g : Graph) (node : GNode) : Graph × Bool :=
  if ¬ has_node_with_name g node.name then
    ({ g with
        nodes := g.nodes ++ [node]
        executable_nodes :=
          if node.isThread then g.executable_nodes ++ [node]
          else g.executable_nodes }, false)
  else
    (g, true)

/-- Models `Graph.remove` (lines 153-157).  The source guards the
`executable_nodes.remove` with `if node is threading.Thread():` — an identity
comparison between `node` and a freshly constructed `Thread` object, which is
false for every `node`; hence `executable_nodes` is never modified, only the
`nodes` set is. -/
def Graph.remove (g : Graph) (node : GNode) : Graph :=
  if node ∈ g.nodes then
    { g with nodes := g.nodes.erase node }
  else g

/-- Models `Graph.stop` (lines 177-184).  `reversed(self.executable_nodes)`
yields a one-shot Python iterator bound to `nodes`; the first `for` loop
(calling `node.stop()`) drains it completely, so the second `for` loop
(calling `node.join()`) iterates over the already-exhausted iterator and
performs no iterations.  The result is the pair
(nodes `stop()` was called on, nodes `join()` was called on), in call order. -/
def Graph.stop (g : Graph) : List GNode × List GNode :=
  let it := g.executable_nodes.reverse
  let stopCalls := it
  let itAfterFirstLoop : List GNode := []
  let joinCalls := itAfterFirstLoop
  (stopCalls, joinCalls)

/-! ## ActiveQueueNode (hydra_common.py, lines 31-59)

`notify` puts the item on a thread-safe FIFO queue; the run loop repeatedly
checks the stop flag, dequeues with a 1-second timeout (an empty queue raises
`Empty`, which is swallowed) and publishes the dequeued item.  We model one
loop iteration per time step `t`: `flag t` is the value the stop-flag check
reads, and `arrivals t` are the items `notify` enqueued since the previous
`queue.get` (in queue/FIFO order).  The result is the list of items the loop
passed to `notify_all`, in order. -/

/-- Models `ActiveQueueNode.run` (hydra_common.py lines 50-59) over `fuel`
loop iterations, starting at time `t` with `queue` already enqueued. -/
def aqnRun (flag : Nat → Bool) (arrivals : Nat → List Nat) :
    Nat → Nat → List Nat → List Nat
  | 0, _, _ => []
  | f + 1, t, queue =>
    if flag t then []
    else
      match queue ++ arrivals t with
      | [] => aqnRun flag arrivals f (t + 1) []
      | x :: rest => x :: aqnRun flag arrivals f (t + 1) rest

/-- All items enqueued during iterations `t, t+1, ..., t+f-1`, in enqueue
order. -/
def enqueuedFrom (arrivals : Nat → List Nat) : Nat → Nat → List Nat
  | _, 0 => []
  | t, f + 1 => arrivals t ++ enqueuedFrom arrivals (t + 1) f

/-! ## TcpSourceSink (hydra_net.py, lines 30-175)

The TCP byte stream is modelled as a list of chunks: each `sock.recv(n)` call
returns the first `min(n, len(head chunk))` bytes of the head chunk (TCP may
deliver fewer bytes than requested), pushing any remainder of the chunk back;
an exhausted stream (or an empty chunk) models the peer having closed the
connection, for which `recv` returns the empty byte string.  The `stopped`
event is modelled as the (constant) value the flag checks read during one
`get_next_item` call. -/

/-- Models the framing strategy `BaseTcpHeader` (hydra_net.py lines 30-52):
a fixed `header_length` and the `get_message_size` function from header bytes
to the number of payload bytes that follow. -/
structure TcpHeader where
  header_length : Nat
  get_message_size : List Nat → Nat

/-- Models one `sock.recv n` call on the chunked stream: returns the bytes
received and the remaining stream. -/
def recv (n : Nat) (chunks : List (List Nat)) : List Nat × List (List Nat) :=
  match chunks with
  | [] => ([], [])
  | c :: rest =>
    let taken := c.take n
    let rem := c.drop n
    (taken, if rem = [] then rest else rem :: rest)

/-- Outcome of one `TcpSourceSink.get_next_item` call: the items passed to
`notify_all` (in order), whether the socket was closed and set to `None`,
the boolean the method returns, and the unread remainder of the stream. -/
structure FetchOut where
  published : List (List Nat)
  sockClosed : Bool
  ret : Bool
  rest : List (List Nat)
deriving DecidableEq

/-- Models the payload loop of `get_next_item` (hydra_net.py lines 125-139):
`while bytes_read < bytes_to_read and not stopped: tmp = recv(missing); ...`.
Returns `none` when a `recv` returned no bytes (peer closed: the source
closes the socket and returns `False`), otherwise the accumulated data —
possibly short, when `stopped` cut the loop — and the remaining stream. -/
def readLoop (stopped : Bool) :
    List (List Nat) → Nat → Option (List Nat × List (List Nat))
  | chunks, 0 => some ([], chunks)
  | [], _ + 1 => if stopped then some ([], []) else none
  | c :: rest, n + 1 =>
    if stopped then some ([], c :: rest)
    else if c = [] then none
    else if c.length < n + 1 then
      match readLoop stopped rest (n + 1 - c.length) with
      | none => none
      | some dr => some (c ++ dr.1, dr.2)
    else if c.length = n + 1 then some (c, rest)
    else some (c.take (n + 1), c.drop (n + 1) :: rest)

/-- Models `get_next_item` after the header bytes `hb` have been received
(hydra_net.py lines 124-148): compute `bytes_to_read`, run the payload loop,
and on a complete read publish the message (prefixed with the header when
`header_length > 0` and `keep_header_data` is set). -/
def fetchBody (hdr : TcpHeader) (keep stopped : Bool) (hb : List Nat)
    (chunks : List (List Nat)) : FetchOut :=
  let need := hdr.get_message_size hb
  match readLoop stopped chunks need with
  | none => ⟨[], true, false, []⟩
  | some dr =>
    if dr.1.length = need then
      let item :=
        if 0 < hdr.header_length then
          if keep then hb ++ dr.1 else dr.1
        else dr.1
      ⟨[item], false, true, dr.2⟩
    else ⟨[], false, true, dr.2⟩

/-- Models `TcpSourceSink.get_next_item` (hydra_net.py lines 114-154) on the
chunked stream; `keep` is the `keep_header_data` flag of the node. -/
def get_next_item (hdr : TcpHeader) (keep stopped : Bool)
    (chunks : List (List Nat)) : FetchOut :=
  if 0 < hdr.header_length then
    let r := recv hdr.header_length chunks
    if r.1 = [] then ⟨[], true, false, r.2⟩
    else fetchBody hdr keep stopped r.1 r.2
  else fetchBody hdr keep stopped [] chunks

/-- Models `TcpSourceSink.notify` (hydra_net.py lines 172-175): given the
current socket handle (`none` = no connection held), returns the socket
state after the call and the list of byte strings written to the socket. -/
def tcpNotify (sock : Option Nat) (item : List Nat) :
    Option Nat × List (List Nat) :=
  match sock with
  | none => (none, [])
  | some s => (some s, [item])

/-! ### The run loop (hydra_net.py, lines 156-170)

`run` calls `initialize`, then loops: check the stop flag; call
`get_next_item`; on failure a client re-runs `initialize` (the full connect
sequence, lines 100-112) while a server re-enters an accept-only loop on the
still-open `server_sock` (lines 163-170).  The environment supplies, per time
step, the stop-flag value, the success of the `get_next_item` call and the
success of an `accept` attempt; the model emits the externally observable
actions in order.  `true` in the result means the loop exited (the thread
terminated); `false` means the fuel ran out with the loop still running. -/

/-- Observable actions of `TcpSourceSink.run`. -/
inductive RunAct where
  /-- A full `initialize()` call: client connect sequence, or server
  bind + listen + accept. -/
  | initConnect
  /-- One `get_next_item()` call. -/
  | fetchItem
  /-- Server-side recovery: re-entering `accept` on the existing
  `server_sock` (no new bind/listen). -/
  | reAccept
deriving DecidableEq

/-- Per-time-step environment of the run loop. -/
structure RunEnv where
  flag : Nat → Bool
  fetch : Nat → Bool
  accept : Nat → Bool

/-- Models the server recovery loop (hydra_net.py lines 163-170): check the
stop flag, attempt `accept` (timeout → retry).  Returns the time after the
loop exits, or `none` if the fuel ran out. -/
def acceptWait (env : RunEnv) : Nat → Nat → Option Nat
  | 0, _ => none
  | f + 1, t =>
    if env.flag t then some (t + 1)
    else if env.accept t then some (t + 1)
    else acceptWait env f (t + 1)

/-- Models the `while` loop of `TcpSourceSink.run` (lines 158-170), emitting
the observable actions; the boolean is `true` iff the loop exited. -/
def runIters (isServer : Bool) (env : RunEnv) : Nat → Nat → List RunAct × Bool
  | 0, _ => ([], false)
  | f + 1, t =>
    if env.flag t then ([], true)
    else if env.fetch t then
      let r := runIters isServer env f (t + 1)
      (RunAct.fetchItem :: r.1, r.2)
    else if isServer then
      match acceptWait env f (t + 1) with
      | none => ([RunAct.fetchItem, RunAct.reAccept], false)
      | some t2 =>
        let r := runIters isServer env f t2
        (RunAct.fetchItem :: RunAct.reAccept :: r.1, r.2)
    else
      let r := runIters isServer env f (t + 1)
      (RunAct.fetchItem :: RunAct.initConnect :: r.1, r.2)

/-- Models `TcpSourceSink.run` (lines 156-170): one `initialize`, then the
loop. -/
def tcpRun (isServer : Bool) (env : RunEnv) (fuel : Nat) : List RunAct × Bool :=
  let r := runIters isServer env fuel 0
  (RunAct.initConnect :: r.1, r.2)

/-- A concrete run-loop environment: the stop flag becomes set at time 2,
every fetch reports a hard failure, every accept attempt succeeds. -/
def envW : RunEnv := ⟨fun t => decide (2 ≤ t), fun _ => false, fun _ => true⟩

/-! ## Helper lemmas -/

/-- The payload loop reads a fully available, arbitrarily segmented stream to
the end. -/
lemma readLoop_full (chunks : List (List Nat)) (h : ∀ c ∈ chunks, c ≠ []) :
    readLoop false chunks chunks.flatten.length = some (chunks.flatten, []) := by
  induction chunks with
  | nil => simp [readLoop]
  | cons c rest ih =>
    have hc : c ≠ [] := h c (List.mem_cons_self _ _)
    have hrest : ∀ d ∈ rest, d ≠ [] := fun d hd => h d (List.mem_cons_of_mem _ hd)
    rcases c with _ | ⟨b, cs⟩
    · exact absurd rfl hc
    · have hlen : ((b :: cs) :: rest).flatten.length
          = (cs.length + rest.flatten.length) + 1 := by
        simp [List.flatten]
      rw [hlen]
      rcases hrj : rest.flatten with _ | ⟨p, psj⟩
      · have hrnil : rest = [] := by
          cases rest with
          | nil => rfl
          | cons d ds =>
            exfalso
            exact hrest d (List.mem_cons_self _ _)
              (List.flatten_eq_nil_iff.mp hrj d (List.mem_cons_self _ _))
        subst hrnil
        simp [readLoop, List.flatten]
      · have hlt : (b :: cs).length < cs.length + rest.flatten.length + 1 := by
          simp [hrj]
        have hnn : ¬ ((b : Nat) :: cs = []) := by simp
        rw [readLoop]
        simp only [if_neg (by decide : ¬ (false = true))]
        rw [if_neg hnn, if_pos (by simp : (b :: cs).length < cs.length + (p :: psj).length + 1)]
        have harg : cs.length + (p :: psj).length + 1 - (b :: cs).length
            = rest.flatten.length := by
          simp [hrj]
        rw [harg, ih hrest]
        simp [List.flatten]

/-- Receiving the header when the first segment of the stream contains at
least the full header. -/
lemma recv_header (hb p1 : List Nat) (ps : List (List Nat)) :
    recv hb.length ((hb ++ p1) :: ps) = (hb, if p1 = [] then ps else p1 :: ps) := by
  simp [recv, List.take_left, List.drop_left]

/-- Membership after one `add_subscriber` call. -/
lemma mem_add_subscriber (subs : List Nat) (s t : Nat) :
    t ∈ add_subscriber subs s ↔ t ∈ subs ∨ t = s := by
  unfold add_subscriber
  by_cases h : s ∈ subs
  · simp only [if_pos h]
    constructor
    · exact Or.inl
    · rintro (h1 | rfl)
      · exact h1
      · exact h
  · simp [if_neg h]

/-- The subscriber set stays duplicate-free under `add_subscriber`. -/
lemma nodup_add_subscriber (subs : List Nat) (s : Nat) (h : subs.Nodup) :
    (add_subscriber subs s).Nodup := by
  unfold add_subscriber
  by_cases hs : s ∈ subs
  · simpa [hs]
  · simp [hs, h, List.nodup_append]

/-- Membership after a whole sequence of `add_subscriber` calls. -/
lemma mem_foldl_add_subscriber (adds subs : List Nat) (t : Nat) :
    t ∈ adds.foldl add_subscriber subs ↔ t ∈ subs ∨ t ∈ adds := by
  induction adds generalizing subs with
  | nil => simp
  | cons a rest ih =>
    simp only [List.foldl_cons, ih, mem_add_subscriber, List.mem_cons]
    tauto

/-- The subscriber set built by a sequence of `add_subscriber` calls is
duplicate-free. -/
lemma nodup_foldl_add_subscriber (adds subs : List Nat) (h : subs.Nodup) :
    (adds.foldl add_subscriber subs).Nodup := by
  induction adds generalizing subs with
  | nil => simpa
  | cons a rest ih => exact ih _ (nodup_add_subscriber _ _ h)

/-- A duplicate-free subscriber set delivers an item exactly once to each
member. -/
lemma notify_all_count_of_mem (subs : List Nat) (s item : Nat)
    (hnd : subs.Nodup) (hmem : s ∈ subs) :
    (notify_all subs item).count (s, item) = 1 := by
  induction subs with
  | nil => simp at hmem
  | cons a rest ih =>
    have hnd' : rest.Nodup := (List.nodup_cons.mp hnd).2
    rcases List.mem_cons.mp hmem with rfl | hs
    · have hsrest : s ∉ rest := (List.nodup_cons.mp hnd).1
      have hnot : (s, item) ∉ notify_all rest item := by
        intro hin
        rcases List.mem_map.mp hin with ⟨t, ht, hte⟩
        cases hte
        exact hsrest ht
      have h0 : (notify_all rest item).count (s, item) = 0 :=
        List.count_eq_zero.mpr hnot
      simp only [notify_all, List.map_cons] at h0 ⊢
      simp [List.count_cons, h0]
    · have hne : s ≠ a := by
        rintro rfl
        exact (List.nodup_cons.mp hnd).1 hs
      have h1 := ih hnd' hs
      simp only [notify_all, List.map_cons] at h1 ⊢
      simp [List.count_cons, h1, hne]

/-- Whatever the stop flag and the arrival pattern, the queue node emits a
prefix (in the `List.take` sense) of the enqueue order. -/
lemma aqnRun_take (flag : Nat → Bool) (arrivals : Nat → List Nat) :
    ∀ f t queue, ∃ n, aqnRun flag arrivals f t queue
      = (queue ++ enqueuedFrom arrivals t f).take n := by
  intro f
  induction f with
  | zero =>
    intro t queue
    exact ⟨0, by simp [aqnRun]⟩
  | succ f ih =>
    intro t queue
    by_cases hfl : flag t
    · exact ⟨0, by simp [aqnRun, hfl]⟩
    · cases hq : queue ++ arrivals t with
      | nil =>
        rcases ih (t + 1) [] with ⟨n, hn⟩
        refine ⟨n, ?_⟩
        have hexp : queue ++ enqueuedFrom arrivals t (f + 1)
            = enqueuedFrom arrivals (t + 1) f := by
          simp [enqueuedFrom, ← List.append_assoc, hq]
        rw [hexp]
        simpa [aqnRun, hfl, hq] using hn
      | cons x rest =>
        rcases ih (t + 1) rest with ⟨n, hn⟩
        refine ⟨n + 1, ?_⟩
        have hexp : queue ++ enqueuedFrom arrivals t (f + 1)
            = x :: (rest ++ enqueuedFrom arrivals (t + 1) f) := by
          simp only [enqueuedFrom, ← List.append_assoc, hq]
          simp
        rw [hexp]
        simp only [List.take_succ_cons, aqnRun]
        rw [if_neg hfl, hq]
        simpa using congrArg (List.cons x) hn

/-- With the stop flag never set and no further arrivals, every pre-enqueued
item is emitted, in order, given enough loop iterations. -/
lemma aqnRun_all (flag : Nat → Bool) (arrivals : Nat → List Nat)
    (hfl : ∀ k, flag k = false) (har : ∀ k, arrivals k = []) :
    ∀ f t queue, queue.length ≤ f → aqnRun flag arrivals f t queue = queue := by
  intro f
  induction f with
  | zero =>
    intro t queue hle
    have : queue = [] := List.length_eq_zero.mp (Nat.le_zero.mp hle)
    simp [this, aqnRun]
  | succ f ih =>
    intro t queue hle
    cases hq : queue with
    | nil => simp [aqnRun, hfl t, har t, ih (t + 1) []]
    | cons x rest =>
      have hr : rest.length ≤ f := by
        subst hq
        simpa using hle
      simp [aqnRun, hfl t, har t, ih (t + 1) rest hr]

/-- The run loop of `TcpSourceSink` exits only after observing the stop flag
set. -/
lemma runIters_exit_flag (isServer : Bool) (env : RunEnv) :
    ∀ fuel t, (runIters isServer env fuel t).2 = true → ∃ k, env.flag k = true := by
  intro fuel
  induction fuel with
  | zero =>
    intro t h
    simp [runIters] at h
  | succ f ih =>
    intro t h
    by_cases hfl : env.flag t = true
    · exact ⟨t, hfl⟩
    · rw [runIters] at h
      rw [if_neg hfl] at h
      by_cases hfe : env.fetch t = true
      · rw [if_pos hfe] at h
        exact ih (t + 1) h
      · rw [if_neg hfe] at h
        by_cases hsrv : isServer = true
        · rw [if_pos hsrv] at h
          cases hacc : acceptWait env f (t + 1) with
          | none => rw [hacc] at h; simp at h
          | some t2 =>
            rw [hacc] at h
            exact ih t2 h
        · rw [if_neg hsrv] at h
          exact ih (t + 1) h

/-! ## Claim theorems -/

/-- C1: evaluation of `Graph.stop` at a graph whose executable nodes were
registered in order [A, B, C].  The first loop requests stop in reverse
order [C, B, A], but — because `reversed()` is a one-shot iterator that the
first loop exhausts — the join loop performs no joins at all, contradicting
the claim that every node is joined in reverse order before `stop()`
returns. -/
theorem graph_stop_requests_reverse_but_never_joins :
    (Graph.stop ⟨0, [⟨0, 0, true⟩, ⟨1, 1, true⟩, ⟨2, 2, true⟩],
        [⟨0, 0, true⟩, ⟨1, 1, true⟩, ⟨2, 2, true⟩]⟩).1
      = [⟨2, 2, true⟩, ⟨1, 1, true⟩, ⟨0, 0, true⟩] ∧
    (Graph.stop ⟨0, [⟨0, 0, true⟩, ⟨1, 1, true⟩, ⟨2, 2, true⟩],
        [⟨0, 0, true⟩, ⟨1, 1, true⟩, ⟨2, 2, true⟩]⟩).2 = [] := by
  decide

/-- C2: for a header strategy with positive header length and a stream whose
first segment carries the complete header (followed, over arbitrarily many
segments, by exactly `get_message_size header` payload bytes), one fetch
step publishes exactly one item — header ++ payload when `keep_header_data`
is set, the payload alone otherwise — and reports success. -/
theorem tcp_framing_roundtrip (hdr : TcpHeader) (keep : Bool) (hb p1 : List Nat)
    (ps : List (List Nat))
    (hH : hdr.header_length = hb.length) (hhb : hb ≠ [])
    (hps : ∀ c ∈ ps, c ≠ [])
    (hf : hdr.get_message_size hb = (p1 ++ ps.flatten).length) :
    get_next_item hdr keep false ((hb ++ p1) :: ps) =
      ⟨[if keep then hb ++ (p1 ++ ps.flatten) else p1 ++ ps.flatten],
        false, true, []⟩ := by
  have hpos : 0 < hdr.header_length := by
    rw [hH]; exact List.length_pos.mpr hhb
  have hread : readLoop false (if p1 = [] then ps else p1 :: ps)
      ((p1 ++ ps.flatten).length) = some (p1 ++ ps.flatten, []) := by
    by_cases hp : p1 = []
    · subst hp
      simpa using readLoop_full ps hps
    · have hall : ∀ c ∈ p1 :: ps, c ≠ [] := by
        intro c hc
        rcases List.mem_cons.mp hc with h1 | h2
        · exact h1 ▸ hp
        · exact hps c h2
      have := readLoop_full (p1 :: ps) hall
      simpa [hp, List.flatten] using this
  simp only [get_next_item, if_pos hpos, hH, recv_header hb p1 ps]
  rw [if_neg hhb]
  simp only [fetchBody, hf, hread]
  simp [hpos, hhb]

/-- C2 witness: header [5, 6] (length 2), message size = header length + 1
= 3, payload [7, 8, 9] split across two segments; the single delivered item
is header ++ payload. -/
theorem tcp_framing_roundtrip_witness :
    get_next_item ⟨2, fun l => l.length + 1⟩ true false [[5, 6, 7], [8, 9]]
      = ⟨[[5, 6, 7, 8, 9]], false, true, []⟩ := by
  have h := tcp_framing_roundtrip ⟨2, fun l => l.length + 1⟩ true [5, 6] [7]
    [[8, 9]] rfl (by decide) (by decide) (by decide)
  exact h

/-- C3 counterexample: with header length 2 and a stream whose first recv
yields only the single byte 7 (a short, non-empty header read), the fetch
step does not close the socket and does not report not-ready; it publishes
an item built from the short header and returns `True` — refuting the claim
that any short read of the header is treated as peer-closed. -/
theorem tcp_short_header_read_not_closed :
    get_next_item ⟨2, fun _ => 0⟩ true false [[7]]
      = ⟨[[7]], false, true, []⟩ ∧
    ¬ ((get_next_item ⟨2, fun _ => 0⟩ true false [[7]]).sockClosed = true ∧
       (get_next_item ⟨2, fun _ => 0⟩ true false [[7]]).ret = false) := by
  decide

/-- C3 (amended): when the header length is positive, the fetch step issues
a single receive of at most `header_length` bytes; only a zero-byte read is
treated as peer-closed — the socket is closed and the step reports
not-ready (`False`) — while a short non-empty read is not detected and is
passed on as the header for the rest of the fetch step. -/
theorem tcp_header_zero_read_peer_closed (hdr : TcpHeader) (keep stopped : Bool)
    (chunks : List (List Nat)) (hH : 0 < hdr.header_length) :
    ((recv hdr.header_length chunks).1 = [] →
      get_next_item hdr keep stopped chunks
        = ⟨[], true, false, (recv hdr.header_length chunks).2⟩) ∧
    ((recv hdr.header_length chunks).1 ≠ [] →
      get_next_item hdr keep stopped chunks
        = fetchBody hdr keep stopped (recv hdr.header_length chunks).1
            (recv hdr.header_length chunks).2) := by
  constructor <;> intro h <;> simp [get_next_item, hH, h]

/-- C3 witness: a zero-byte header read (closed stream) closes the socket
and reports not-ready; a one-byte read under header length 3 is fed to the
rest of the fetch step as the header. -/
theorem tcp_header_zero_read_witness :
    get_next_item ⟨2, fun _ => 0⟩ true false [] = ⟨[], true, false, []⟩ ∧
    get_next_item ⟨3, fun _ => 0⟩ true false [[8]]
      = fetchBody ⟨3, fun _ => 0⟩ true false [8] [] := by
  have h1 := (tcp_header_zero_read_peer_closed ⟨2, fun _ => 0⟩ true false []
    (by decide)).1 rfl
  have h2 := (tcp_header_zero_read_peer_closed ⟨3, fun _ => 0⟩ true false [[8]]
    (by decide)).2 (by decide)
  exact ⟨h1, h2⟩

/-- C4: the `TcpSourceSink` run loop terminates only once a stop-flag check
observes the flag set; after a failed fetch with the flag still clear, a
client re-runs the full connect sequence (`initConnect`) while a server
re-enters accept on its still-open listening socket (`reAccept`, never a
fresh `initConnect`). -/
theorem tcp_run_recovery (isServer : Bool) (env : RunEnv) :
    (∀ fuel, (tcpRun isServer env fuel).2 = true → ∃ k, env.flag k = true) ∧
    (∀ fuel t, env.flag t = false → env.fetch t = false →
      runIters false env (fuel + 1) t
        = (RunAct.fetchItem :: RunAct.initConnect ::
            (runIters false env fuel (t + 1)).1,
           (runIters false env fuel (t + 1)).2)) ∧
    (∀ fuel t, env.flag t = false → env.fetch t = false →
      (runIters true env (fuel + 1) t).1.take 2
        = [RunAct.fetchItem, RunAct.reAccept]) := by
  refine ⟨?_, ?_, ?_⟩
  · intro fuel h
    exact runIters_exit_flag isServer env fuel 0 h
  · intro fuel t hfl hfe
    rw [runIters, if_neg (by simp [hfl]), if_neg (by simp [hfe]),
      if_neg (by simp : ¬ (false = true))]
  · intro fuel t hfl hfe
    rw [runIters, if_neg (by simp [hfl]), if_neg (by simp [hfe]), if_pos rfl]
    cases hacc : acceptWait env fuel (t + 1) with
    | none => simp
    | some t2 => simp

/-- C4 witness: in an environment whose stop flag becomes set at time 2 and
whose fetches always fail, the run returns (and the flag was indeed set at
some point); at time 0, with the flag clear, the client trace continues with
a fresh connect sequence and the server trace with a re-accept. -/
theorem tcp_run_recovery_witness :
    (∃ k, envW.flag k = true) ∧
    runIters false envW 1 0
      = (RunAct.fetchItem :: RunAct.initConnect :: (runIters false envW 0 1).1,
         (runIters false envW 0 1).2) ∧
    (runIters true envW 1 0).1.take 2 = [RunAct.fetchItem, RunAct.reAccept] :=
  ⟨(tcp_run_recovery false envW).1 5 (by decide),
   (tcp_run_recovery false envW).2.1 0 0 (by decide) (by decide),
   (tcp_run_recovery true envW).2.2 0 0 (by decide) (by decide)⟩

/-- C5: `Graph.add` of a node whose name is already present raises the
duplicate-name error and leaves the graph exactly as it was; otherwise it
registers the node and, iff the node owns a thread of control, appends it to
the executable sequence. -/
theorem graph_add_duplicate_rejected (g : Graph) (node : GNode) :
    (has_node_with_name g node.name = true → Graph.add g node = (g, true)) ∧
    (has_node_with_name g node.name = false →
      Graph.add g node
        = ({ name := g.name, nodes := g.nodes ++ [node],
             executable_nodes :=
               if node.isThread then g.executable_nodes ++ [node]
               else g.executable_nodes }, false)) := by
  constructor <;> intro h <;> simp [Graph.add, h]

/-- C5 witness: adding a node named 7 to a graph already holding a node
named 7 errors and changes nothing; adding it to an empty graph registers
it and, being thread-owning, appends it to the executable sequence. -/
theorem graph_add_duplicate_rejected_witness :
    Graph.add ⟨0, [⟨1, 7, false⟩], []⟩ ⟨2, 7, true⟩
      = (⟨0, [⟨1, 7, false⟩], []⟩, true) ∧
    Graph.add ⟨0, [], []⟩ ⟨2, 7, true⟩
      = (⟨0, [⟨2, 7, true⟩], [⟨2, 7, true⟩]⟩, false) := by
  have h1 := (graph_add_duplicate_rejected ⟨0, [⟨1, 7, false⟩], []⟩ ⟨2, 7, true⟩).1
    (by decide)
  have h2 := (graph_add_duplicate_rejected ⟨0, [], []⟩ ⟨2, 7, true⟩).2 (by decide)
  exact ⟨h1, h2⟩

/-- C6: after any sequence of `add_subscriber` calls, a subscriber that was
registered at least once receives exactly one `notify` call from a single
publish, and every call delivers that same item. -/
theorem publish_delivers_exactly_once (adds : List Nat) (s item : Nat)
    (hs : s ∈ adds) :
    (notify_all (adds.foldl add_subscriber []) item).count (s, item) = 1 ∧
    ∀ p ∈ notify_all (adds.foldl add_subscriber []) item, p.2 = item := by
  constructor
  · have hmem : s ∈ adds.foldl add_subscriber [] :=
      (mem_foldl_add_subscriber adds [] s).mpr (Or.inr hs)
    have hnd : (adds.foldl add_subscriber []).Nodup :=
      nodup_foldl_add_subscriber adds [] List.nodup_nil
    exact notify_all_count_of_mem _ s item hnd hmem
  · intro p hp
    simp only [notify_all, List.mem_map] at hp
    rcases hp with ⟨t, ht, rfl⟩
    rfl

/-- C6 witness: subscriber 3 is registered twice (a set no-op) alongside
subscriber 5; publishing item 42 notifies subscriber 3 exactly once. -/
theorem publish_delivers_exactly_once_witness :
    (notify_all ([3, 5, 3].foldl add_subscriber []) 42).count (3, 42) = 1 ∧
    ∀ p ∈ notify_all ([3, 5, 3].foldl add_subscriber []) 42, p.2 = 42 :=
  publish_delivers_exactly_once [3, 5, 3] 3 42 (by decide)

/-- C7: the queue node publishes a prefix of the enqueue order — so no item
is ever published before an earlier-enqueued one and none is published
twice — and when the stop flag stays clear and all items are already
enqueued, enough iterations publish every item, in exactly FIFO order. -/
theorem aqn_fifo (flag : Nat → Bool) (arrivals : Nat → List Nat) :
    (∀ f t queue, ∃ n, aqnRun flag arrivals f t queue
        = (queue ++ enqueuedFrom arrivals t f).take n) ∧
    (∀ f t queue, (∀ k, flag k = false) → (∀ k, arrivals k = []) →
      queue.length ≤ f → aqnRun flag arrivals f t queue = queue) :=
  ⟨aqnRun_take flag arrivals,
   fun f t queue h1 h2 h3 => aqnRun_all flag arrivals h1 h2 f t queue h3⟩

/-- C7 witness: with items [1, 2] pre-enqueued, no further arrivals and the
stop flag clear, three iterations publish [1, 2] — a `take`-prefix of the
enqueue order and, here, all of it. -/
theorem aqn_fifo_witness :
    (∃ n, aqnRun (fun _ => false) (fun _ => []) 3 0 [1, 2]
        = ([1, 2] ++ enqueuedFrom (fun _ => []) 0 3).take n) ∧
    aqnRun (fun _ => false) (fun _ => []) 3 0 [1, 2] = [1, 2] :=
  ⟨(aqn_fifo (fun _ => false) (fun _ => [])).1 3 0 [1, 2],
   (aqn_fifo (fun _ => false) (fun _ => [])).2 3 0 [1, 2]
     (fun _ => rfl) (fun _ => rfl) (by decide)⟩

/-- C8: `TcpSourceSink.notify` with no connection held silently drops the
item — nothing is written and the socket state is unchanged — while with a
connection held it writes exactly the raw bytes of the item. -/
theorem tcp_send_without_connection_drops (item : List Nat) :
    tcpNotify none item = (none, []) ∧
    ∀ s, tcpNotify (some s) item = (some s, [item]) :=
  ⟨rfl, fun _ => rfl⟩

/-- C9: evaluation of `Graph.remove` after adding one thread-owning node:
the node is removed from the node set but — because the source tests
`node is threading.Thread()`, which is always false — stays in the
executable sequence, violating the claimed invariant that every executable
node is a member of the node set. -/
theorem graph_remove_leaves_executable :
    Graph.remove ((Graph.add ⟨0, [], []⟩ ⟨1, 5, true⟩).1) ⟨1, 5, true⟩
      = ⟨0, [], [⟨1, 5, true⟩]⟩ := by
  decide

/-- C10: when `get_message_size` returns 0 for a successfully received
header, the fetch step still publishes exactly one item — the header bytes
when `keep_header_data` is set, the empty byte string otherwise — and
returns `True`. -/
theorem tcp_zero_length_message (hdr : TcpHeader) (keep stopped : Bool)
    (chunks : List (List Nat)) (hH : 0 < hdr.header_length)
    (hhb : (recv hdr.header_length chunks).1 ≠ [])
    (hz : hdr.get_message_size ((recv hdr.header_length chunks).1) = 0) :
    get_next_item hdr keep stopped chunks =
      ⟨[if keep then (recv hdr.header_length chunks).1 else []], false, true,
        (recv hdr.header_length chunks).2⟩ := by
  simp only [get_next_item, if_pos hH]
  rw [if_neg hhb]
  simp only [fetchBody, hz, readLoop]
  simp [hH]

/-- C10 witness: header [5, 6] decodes to message size 0 with
`keep_header_data` disabled; the fetch publishes the empty byte string,
reports success and leaves the next segment unread. -/
theorem tcp_zero_length_message_witness :
    get_next_item ⟨2, fun _ => 0⟩ false false [[5, 6], [9]]
      = ⟨[[]], false, true, [[9]]⟩ := by
  have h := tcp_zero_length_message ⟨2, fun _ => 0⟩ false false [[5, 6], [9]]
    (by decide) (by decide) (by decide)
  exact h

end Hydra
